import Mathlib

/-!
Verification of the response-parsing layer of `scripts/main_automation.py`
(EKS automation pipeline).

The Python strings are modelled as `List Char`.  The two extractors
`_extract_terraform_code` / `_extract_yaml_content` / `_extract_dockerfile_content` /
`_extract_script_content` are modelled by a direct implementation of the
semantics of the Python regular expressions they use
(leftmost match, ordered alternation, lazy capture, `re.DOTALL`), and
`_parse_k8s_manifests` by a direct implementation of `str.split('---')`,
`str.strip()`, a model of `yaml.safe_load` restricted to the document
shapes the claims exercise, and Python `dict` insertion semantics.
The orchestration of `run_full_pipeline` is modelled by an explicit
state (number of generation calls made, files written, pending error).
-/

/-! ### Basic machinery for Python strings (`List Char`) -/

/-- Whitespace characters removed by Python `str.strip()` (ASCII part). -/
def isWs (c : Char) : Bool :=
  c == ' ' || c == '\t' || c == '\n' || c == '\r' || c == '\x0b' || c == '\x0c'

/-- Python `str.strip()`: drop leading and trailing whitespace. -/
def pstrip (l : List Char) : List Char :=
  ((l.dropWhile isWs).reverse.dropWhile isWs).reverse

/-- A line consisting only of whitespace (or empty). -/
def isBlankLine (ln : List Char) : Bool := ln.all isWs

/-- A line starting with whitespace. -/
def isIndentedLine : List Char → Bool
  | [] => false
  | c :: _ => isWs c

/-- Helper for `splitNl`: accumulate the current line (reversed). -/
def splitNlAux : List Char → List Char → List (List Char)
  | [], acc => [acc.reverse]
  | c :: cs, acc => if c = '\n' then acc.reverse :: splitNlAux cs [] else splitNlAux cs (c :: acc)

/-- Split a string into its lines at newline characters. -/
def splitNl (l : List Char) : List (List Char) := splitNlAux l []

/-- If `pat` is a prefix of `l`, return the rest of `l` after it. -/
def stripPre : List Char → List Char → Option (List Char)
  | [], l => some l
  | _ :: _, [] => none
  | a :: as, b :: bs => if a = b then stripPre as bs else none

/-- Split `l` at the first (leftmost) occurrence of `pat`, returning the
text before and after that occurrence. -/
def splitOnFirst (pat : List Char) : List Char → Option (List Char × List Char)
  | [] =>
    match stripPre pat [] with
    | some rest => some ([], rest)
    | none => none
  | c :: cs =>
    match stripPre pat (c :: cs) with
    | some rest => some ([], rest)
    | none =>
      match splitOnFirst pat cs with
      | some (pre, post) => some (c :: pre, post)
      | none => none

/-- Whether `pat` occurs anywhere in `l` as a contiguous substring. -/
def containsSub (pat : List Char) : List Char → Bool
  | [] => (stripPre pat []).isSome
  | c :: cs => (stripPre pat (c :: cs)).isSome || containsSub pat cs

/-- Python `str.lower()` (ASCII case folding suffices for the claims). -/
def lowerL (l : List Char) : List Char := l.map Char.toLower

/-! ### The regular-expression model for the fence extractors

The code tries, in order, the patterns
`r'(BT)(BT)(BT)(?:terraform|hcl)?\n(.*?)\n(BT)(BT)(BT)'` (where `BT` is a backtick),
then the same with no language alternative, and (for
`_extract_terraform_code` only) `r'(BT)(BT)(BT)(.*?)(BT)(BT)(BT)'`, all with `re.DOTALL`,
taking `matches[0]` of `re.findall`, i.e. the captured group of the
leftmost match; the alternation is tried in the written order and the
lazy group captures up to the earliest possible closing delimiter. -/

/-- One backtick. -/
def tick1 : List Char := "`".data

/-- Two backticks. -/
def tick2 : List Char := "``".data

/-- The fence delimiter: three backticks. -/
def tick3 : List Char := "```".data

/-- A newline followed by the closing fence. -/
def nlTick3 : List Char := "\n```".data

/-- A newline followed by two backticks: all but the last character of
`nlTick3`, used to state that a body cannot reach into a closing fence. -/
def nlT2 : List Char := "\n``".data

/-- A single newline, as a string. -/
def nl1 : List Char := "\n".data

def tTerraform : List Char := "terraform".data

def tHcl : List Char := "hcl".data

def tYaml : List Char := "yaml".data

def tYml : List Char := "yml".data

def tDockerfile : List Char := "dockerfile".data

def tDocker : List Char := "docker".data

def tBash : List Char := "bash".data

def tSh : List Char := "sh".data

def tShell : List Char := "shell".data

/-- Try to match `(BT)(BT)(BT)<tag>\n(.*?)\n(BT)(BT)(BT)` at the start of `l`,
returning the lazily captured group. -/
def tryTag (tag : List Char) (l : List Char) : Option (List Char) :=
  (stripPre (tick3 ++ (tag ++ nl1)) l).bind fun rest =>
    (splitOnFirst nlTick3 rest).map fun pq => pq.1

/-- Ordered alternation over the language tags (the empty tag models the
`?`-optional alternative, tried last as in the regex engine). -/
def attemptTags : List (List Char) → List Char → Option (List Char)
  | [], _ => none
  | t :: ts, l =>
    match tryTag t l with
    | some b => some b
    | none => attemptTags ts l

/-- Try to match the inline pattern `(BT)(BT)(BT)(.*?)(BT)(BT)(BT)` at the start of `l`. -/
def attempt3 (l : List Char) : Option (List Char) :=
  (stripPre tick3 l).bind fun rest =>
    (splitOnFirst tick3 rest).map fun pq => pq.1

/-- Leftmost-match scan: try `att` at every position, left to right. -/
def scanFirst (att : List Char → Option (List Char)) : List Char → Option (List Char)
  | [] => none
  | c :: cs =>
    match att (c :: cs) with
    | some b => some b
    | none => scanFirst att cs

/-- `_extract_terraform_code`: try the three code-block patterns in order;
on a match return the captured group stripped, otherwise the whole
response stripped. -/
def extract_terraform_code (response : List Char) : List Char :=
  match scanFirst (attemptTags [tTerraform, tHcl, []]) response with
  | some b => pstrip b
  | none =>
    match scanFirst (attemptTags [[]]) response with
    | some b => pstrip b
    | none =>
      match scanFirst attempt3 response with
      | some b => pstrip b
      | none => pstrip response

/-- `_extract_yaml_content` (no inline-fence fallback pattern). -/
def extract_yaml_content (response : List Char) : List Char :=
  match scanFirst (attemptTags [tYaml, tYml, []]) response with
  | some b => pstrip b
  | none =>
    match scanFirst (attemptTags [[]]) response with
    | some b => pstrip b
    | none => pstrip response

/-- `_extract_dockerfile_content`. -/
def extract_dockerfile_content (response : List Char) : List Char :=
  match scanFirst (attemptTags [tDockerfile, tDocker, []]) response with
  | some b => pstrip b
  | none =>
    match scanFirst (attemptTags [[]]) response with
    | some b => pstrip b
    | none => pstrip response

/-- `_extract_script_content`. -/
def extract_script_content (response : List Char) : List Char :=
  match scanFirst (attemptTags [tBash, tSh, tShell, []]) response with
  | some b => pstrip b
  | none =>
    match scanFirst (attemptTags [[]]) response with
    | some b => pstrip b
    | none => pstrip response

/-! ### The model of `_parse_k8s_manifests`

`response.split('---')` is implemented character by character
(`sdGo`), reproducing Python's leftmost non-overlapping split semantics
for the fixed separator `---`.

`yaml.safe_load` is modelled by `safeLoad`, restricted to the document
shapes the claims exercise: a document whose non-blank lines are all
plain (no `key: value` shape) parses to a folded plain scalar string;
a document led by top-level `key: value` / `key:` lines parses to a
mapping whose scalar values are kept as strings and whose indented
blocks are collapsed into an opaque `nested` value; mixing a top-level
plain line into a mapping, an empty key, or a value containing a second
`: ` raises (is an `Except.error`), as the library does.  Python
truthiness, the `'kind' in yaml_doc` membership test (key lookup for a
mapping, substring test for a string — and the `TypeError` raised by
`yaml_doc['kind']` when the value is a string), and `dict` last-write-wins
insertion are modelled explicitly. -/

/-- The document separator `---`. -/
def dash3 : List Char := "---".data

/-- Two dashes (used to state that a fragment boundary is unambiguous). -/
def dash2 : List Char := "--".data

/-- Character-by-character implementation of `str.split('---')`:
`acc` is the current fragment (reversed), `k < 3` counts the dashes of a
potential separator already consumed. -/
def sdGo : List Char → List Char → Nat → List (List Char)
  | [], acc, k => [(List.replicate k '-' ++ acc).reverse]
  | c :: cs, acc, k =>
    if c = '-' then
      if k = 2 then acc.reverse :: sdGo cs [] 0
      else sdGo cs acc (k + 1)
    else sdGo cs (c :: (List.replicate k '-' ++ acc)) 0

/-- Python `response.split('---')`. -/
def pySplitDashes (l : List Char) : List (List Char) := sdGo l [] 0

/-- Result of the modelled `yaml.safe_load`: Python `None`, a scalar
string, a mapping (keys to values, in document order, duplicates kept),
or an opaque nested block value. -/
inductive PyVal where
  | none
  | str (s : List Char)
  | dict (entries : List (List Char × PyVal))
  | nested

instance : Inhabited PyVal := ⟨PyVal.none⟩

/-- Classification of one top-level line of a YAML document. -/
inductive LineKind where
  | map (k : List Char) (v : PyVal)
  | plain
  | bad

/-- The `key: value` separator. -/
def colonSp : List Char := ": ".data

/-- Classify a single line: a `key: value` or trailing-`key:` mapping
line, a plain scalar line, or a line the library rejects. -/
def classifyLine (ln : List Char) : LineKind :=
  match splitOnFirst colonSp ln with
  | some (key, rest) =>
    if key = [] then .bad
    else if containsSub colonSp rest then .bad
    else .map key (if pstrip rest = [] then .none else .str (pstrip rest))
  | none =>
    match ln.getLast? with
    | some c =>
      if c = ':' then (if ln.dropLast = [] then .bad else .map ln.dropLast .none)
      else .plain
    | none => .plain

/-- Is the line a plain scalar line? -/
def isPlainLine (ln : List Char) : Bool :=
  match classifyLine ln with
  | .plain => true
  | _ => false

/-- Parse the non-blank lines of a mapping document: top-level mapping
lines add entries, indented lines collapse the previous entry's value to
`nested`, anything else raises. -/
def safeLoadCore : List (List Char) → List (List Char × PyVal) → Except Unit PyVal
  | [], acc => .ok (.dict acc.reverse)
  | ln :: rest, acc =>
    if isIndentedLine ln then
      match acc with
      | [] => .error ()
      | (k, _) :: t => safeLoadCore rest ((k, PyVal.nested) :: t)
    else
      match classifyLine ln with
      | .map k v => safeLoadCore rest ((k, v) :: acc)
      | _ => .error ()

/-- The model of `yaml.safe_load` (see the section comment for its scope). -/
def safeLoad (doc : List Char) : Except Unit PyVal :=
  let content := (splitNl doc).filter (fun ln => !(isBlankLine ln))
  match content with
  | [] => .ok .none
  | _ :: _ =>
    if content.all isPlainLine then
      .ok (.str (List.intercalate [' '] (content.map pstrip)))
    else
      safeLoadCore content []

/-- Python truthiness of the parsed value (`if yaml_doc`). -/
def truthy : PyVal → Bool
  | .none => false
  | .str s => !s.isEmpty
  | .dict d => !d.isEmpty
  | .nested => true

/-- The key `'kind'`. -/
def kindKey : List Char := "kind".data

/-- Python `'kind' in yaml_doc`: key membership for a mapping, substring
test for a string, `False` otherwise. -/
def pyHasKind : PyVal → Bool
  | .dict d => d.any (fun p => p.1 == kindKey)
  | .str s => containsSub kindKey s
  | _ => false

/-- Python `dict` lookup on the model's entry list (last duplicate wins,
as in the library's duplicate-key handling). -/
def pyGet (d : List (List Char × PyVal)) (k : List Char) : Option PyVal :=
  (d.reverse.find? (fun p => p.1 == k)).map (fun p => p.2)

/-- `yaml_doc['kind'].lower()` guarded by truthiness and membership:
`ok (some kind)` means the lower-cased kind was obtained, `ok none`
means the `if` guard was false (fragment silently skipped), `error`
means an exception was raised (string indexing `TypeError`, or
`.lower()` on a non-string value). -/
def kindOf (v : PyVal) : Except Unit (Option (List Char)) :=
  if truthy v then
    if pyHasKind v then
      match v with
      | .dict d =>
        match pyGet d kindKey with
        | some (.str s) => .ok (some (lowerL s))
        | _ => .error ()
      | _ => .error ()
    else .ok none
  else .ok none

/-- The whole `try` body for one fragment: parse, test, index, lower. -/
def tryKind (doc : List Char) : Except Unit (Option (List Char)) :=
  match safeLoad doc with
  | .error e => .error e
  | .ok v => kindOf v

/-- Python `dict` assignment `m[k] = v`: overwrite in place if the key
exists (keeping its position), else append. -/
def dictInsert (m : List (List Char × List Char)) (k v : List Char) :
    List (List Char × List Char) :=
  if m.any (fun p => p.1 == k) then
    m.map (fun p => if p.1 == k then (k, v) else p)
  else m ++ [(k, v)]

def mDeployment : List Char := "Deployment".data

def mService : List Char := "Service".data

def mIngress : List Char := "Ingress".data

def kDeployment : List Char := "deployment".data

def kService : List Char := "service".data

def kIngress : List Char := "ingress".data

/-- The `except:` fallback: substring search for the literal markers, in
the order of the `if`/`elif` chain. -/
def fallbackInsert (doc : List Char) (m : List (List Char × List Char)) :
    List (List Char × List Char) :=
  if containsSub mDeployment doc then dictInsert m kDeployment doc
  else if containsSub mService doc then dictInsert m kService doc
  else if containsSub mIngress doc then dictInsert m kIngress doc
  else m

/-- Processing of one non-empty stripped fragment. -/
def handleDoc (m : List (List Char × List Char)) (doc : List Char) :
    List (List Char × List Char) :=
  match tryKind doc with
  | .ok (some k) => dictInsert m k doc
  | .ok none => m
  | .error _ => fallbackInsert doc m

/-- The loop body of `_parse_k8s_manifests`: strip the fragment, skip it
when empty, otherwise process it. -/
def parseStep (m : List (List Char × List Char)) (d : List Char) :
    List (List Char × List Char) :=
  let doc := pstrip d
  if doc = [] then m else handleDoc m doc

/-- `_parse_k8s_manifests`: split on `---`, strip each fragment, skip
empty ones, and process the rest. -/
def parse_k8s_manifests (response : List Char) : List (List Char × List Char) :=
  (pySplitDashes response).foldl parseStep []

/-! ### The orchestration model (`run_full_pipeline`)

The generation endpoint is abstracted as `api : Nat → Except E (List Char)`
giving the response (or the raised error) of the n-th generation call of
the run; the prompts are fixed strings and do not influence any claim.
`_call_gemini_api` and every `generate_*` wrapper catch, log and
re-raise the same exception, so an error value propagates unchanged;
this is modelled by the `err` field, which, once set, makes every later
step a no-op.  `files` records the file writes in program order. -/

structure PipeState (E : Type) where
  ncalls : Nat
  files : List (List Char × List Char)
  err : Option E

def pStage1 : List Char := "terraform/Stage1/main.tf".data

def pStage2 : List Char := "terraform/Stage2/main.tf".data

def pVariables : List Char := "terraform/Stage1/variables.tf".data

def yamlExt : List Char := ".yaml".data

def pWorkflow : List Char := ".github/workflows/deploy.yml".data

def pDockerfile : List Char := "Dockerfile".data

def pSetup : List Char := "scripts/setup.sh".data

def pDeploy : List Char := "scripts/deploy.sh".data

/-- One generation call followed immediately by the file writes `mk`
derives from the response.  On failure the error is recorded and the
files are untouched. -/
def oneCall {E : Type} (api : Nat → Except E (List Char))
    (mk : List Char → List (List Char × List Char)) (st : PipeState E) : PipeState E :=
  match st.err with
  | some _ => st
  | none =>
    match api st.ncalls with
    | .error e => { st with ncalls := st.ncalls + 1, err := some e }
    | .ok r => { st with ncalls := st.ncalls + 1, files := st.files ++ mk r }

/-- `generate_complete_terraform_main`: two calls, each followed by its
own file write (Stage1 is on disk before the Stage2 call is issued). -/
def generate_complete_terraform_main {E : Type} (api : Nat → Except E (List Char))
    (st : PipeState E) : PipeState E :=
  oneCall api (fun r => [(pStage2, extract_terraform_code r)])
    (oneCall api (fun r => [(pStage1, extract_terraform_code r)]) st)

def generate_terraform_variables {E : Type} (api : Nat → Except E (List Char))
    (st : PipeState E) : PipeState E :=
  oneCall api (fun r => [(pVariables, extract_terraform_code r)]) st

/-- `generate_kubernetes_manifests`: one call, then one file per parsed
manifest kind (`f"{name}.yaml"`). -/
def generate_kubernetes_manifests {E : Type} (api : Nat → Except E (List Char))
    (st : PipeState E) : PipeState E :=
  oneCall api (fun r => (parse_k8s_manifests r).map (fun kv => (kv.1 ++ yamlExt, kv.2))) st

def generate_github_actions_workflow {E : Type} (api : Nat → Except E (List Char))
    (st : PipeState E) : PipeState E :=
  oneCall api (fun r => [(pWorkflow, extract_yaml_content r)]) st

def generate_dockerfile {E : Type} (api : Nat → Except E (List Char))
    (st : PipeState E) : PipeState E :=
  oneCall api (fun r => [(pDockerfile, extract_dockerfile_content r)]) st

/-- `generate_deployment_scripts`: both calls are made before either
script file is written. -/
def generate_deployment_scripts {E : Type} (api : Nat → Except E (List Char))
    (st : PipeState E) : PipeState E :=
  match st.err with
  | some _ => st
  | none =>
    match api st.ncalls with
    | .error e => { st with ncalls := st.ncalls + 1, err := some e }
    | .ok r1 =>
      match api (st.ncalls + 1) with
      | .error e => { st with ncalls := st.ncalls + 2, err := some e }
      | .ok r2 =>
        let ws := [(pSetup, extract_script_content r1), (pDeploy, extract_script_content r2)]
        { st with ncalls := st.ncalls + 2, files := st.files ++ ws }

/-- `run_full_pipeline`: the fixed sequence of generation steps. -/
def run_full_pipeline {E : Type} (api : Nat → Except E (List Char)) : PipeState E :=
  generate_deployment_scripts api
    (generate_dockerfile api
      (generate_github_actions_workflow api
        (generate_kubernetes_manifests api
          (generate_terraform_variables api
            (generate_complete_terraform_main api
              { ncalls := 0, files := [], err := none })))))

/-- A generation endpoint whose every call fails (used by witnesses). -/
def apiAllFail : Nat → Except Nat (List Char) := fun _ => Except.error 0

/-! ### Helper lemmas: prefix stripping and substring search -/

theorem opt_none_of_isSome_false {α : Type} {o : Option α} (h : o.isSome = false) : o = none := by
  cases o <;> simp_all

theorem stripPre_self_append (p r : List Char) : stripPre p (p ++ r) = some r := by
  induction p with
  | nil => rfl
  | cons a as ih => simp [stripPre, ih]

theorem stripPre_append (p q l : List Char) :
    stripPre (p ++ q) l = (stripPre p l).bind (stripPre q) := by
  induction p generalizing l with
  | nil => simp [stripPre]
  | cons a as ih =>
    cases l with
    | nil => simp [stripPre]
    | cons b bs =>
      by_cases hab : a = b
      · simp [stripPre, hab, ih]
      · simp [stripPre, hab]

theorem stripPre_eq_some {p l r : List Char} (h : stripPre p l = some r) : l = p ++ r := by
  induction p generalizing l with
  | nil =>
    simp only [stripPre, Option.some.injEq] at h
    simp [h]
  | cons a as ih =>
    cases l with
    | nil => simp [stripPre] at h
    | cons b bs =>
      by_cases hab : a = b
      · subst hab
        simp only [stripPre, if_pos rfl] at h
        simpa using ih h
      · simp [stripPre, hab] at h

theorem stripPre_isSome_append {p x : List Char} (m : List Char) (h : p.length ≤ x.length) :
    (stripPre p (x ++ m)).isSome = (stripPre p x).isSome := by
  induction p generalizing x with
  | nil => simp [stripPre]
  | cons a as ih =>
    cases x with
    | nil => simp at h
    | cons b bs =>
      by_cases hab : a = b
      · simp only [List.cons_append, stripPre, if_pos hab]
        exact ih (by simpa using h)
      · simp [stripPre, hab]

theorem containsSub_cons (pat : List Char) (c : Char) (cs : List Char) :
    containsSub pat (c :: cs) = ((stripPre pat (c :: cs)).isSome || containsSub pat cs) := rfl

theorem containsSub_append_right {pat x y : List Char}
    (h : containsSub pat (x ++ y) = false) : containsSub pat y = false := by
  induction x with
  | nil => simpa using h
  | cons c cs ih =>
    rw [List.cons_append, containsSub_cons, Bool.or_eq_false_iff] at h
    exact ih h.2

theorem containsSub_head_false {pat l : List Char}
    (h : containsSub pat l = false) (hl : l ≠ []) : stripPre pat l = none := by
  cases l with
  | nil => exact absurd rfl hl
  | cons c cs =>
    rw [containsSub_cons, Bool.or_eq_false_iff] at h
    exact opt_none_of_isSome_false h.1

/-- Key straddling lemma: if `pat` has length `≤ |x|` and does not occur
at the start of `x` then it does not occur at the start of `x ++ m`. -/
theorem stripPre_none_append {pat x : List Char} (m : List Char)
    (hlen : pat.length ≤ x.length) (h : (stripPre pat x).isSome = false) :
    stripPre pat (x ++ m) = none := by
  apply opt_none_of_isSome_false
  rw [stripPre_isSome_append m hlen]
  exact h

/-! ### Helper lemmas: the fence scanners -/

theorem tryTag_none_of_no_tick {tag l : List Char} (h : stripPre tick3 l = none) :
    tryTag tag l = none := by
  have : stripPre (tick3 ++ (tag ++ nl1)) l = none := by
    rw [stripPre_append, h]
    rfl
  simp [tryTag, this]

theorem attemptTags_none_of_no_tick {l : List Char} (tags : List (List Char))
    (h : stripPre tick3 l = none) : attemptTags tags l = none := by
  induction tags with
  | nil => rfl
  | cons t ts ih => simp [attemptTags, tryTag_none_of_no_tick h, ih]

theorem attempt3_none_of_no_tick {l : List Char} (h : stripPre tick3 l = none) :
    attempt3 l = none := by
  simp [attempt3, h]

theorem scanFirst_none (att : List Char → Option (List Char))
    (hatt : ∀ l, stripPre tick3 l = none → att l = none) :
    ∀ l, containsSub tick3 l = false → scanFirst att l = none := by
  intro l
  induction l with
  | nil => intro _; rfl
  | cons c cs ih =>
    intro h
    rw [containsSub_cons, Bool.or_eq_false_iff] at h
    have h1 : att (c :: cs) = none := hatt _ (opt_none_of_isSome_false h.1)
    simp [scanFirst, h1, ih h.2]

theorem scanFirst_cons_some {att : List Char → Option (List Char)} {l b : List Char}
    (h : att l = some b) (hl : l ≠ []) : scanFirst att l = some b := by
  cases l with
  | nil => exact absurd rfl hl
  | cons c cs => simp [scanFirst, h]

theorem containsSub_cons_false {pat : List Char} {c : Char} {cs : List Char}
    (h : containsSub pat (c :: cs) = false) :
    (stripPre pat (c :: cs)).isSome = false ∧ containsSub pat cs = false := by
  rw [containsSub_cons, Bool.or_eq_false_iff] at h
  exact h

/-- Scanning skips a preamble that cannot start a fence: if `pre ++ tick2`
has no occurrence of three backticks, no match can start inside `pre`
(not even straddling into the backticks that follow). -/
theorem scanFirst_skip (att : List Char → Option (List Char))
    (hatt : ∀ l, stripPre tick3 l = none → att l = none) :
    ∀ (pre rest0 : List Char), containsSub tick3 (pre ++ tick2) = false →
      scanFirst att (pre ++ (tick2 ++ rest0)) = scanFirst att (tick2 ++ rest0) := by
  intro pre
  induction pre with
  | nil => intro rest0 _; rfl
  | cons c cs ih =>
    intro rest0 h
    have h' : containsSub tick3 (c :: (cs ++ tick2)) = false := by simpa using h
    obtain ⟨h1, h2⟩ := containsSub_cons_false h'
    have hlen : tick3.length ≤ (c :: (cs ++ tick2)).length := by
      have e3 : tick3.length = 3 := rfl
      have e2 : tick2.length = 2 := rfl
      simp only [e3, List.length_cons, List.length_append, e2]
      omega
    have hx : stripPre tick3 ((c :: (cs ++ tick2)) ++ rest0) = none :=
      stripPre_none_append _ hlen h1
    have hx' : att (c :: (cs ++ (tick2 ++ rest0))) = none := by
      apply hatt
      have heq : c :: (cs ++ (tick2 ++ rest0)) = (c :: (cs ++ tick2)) ++ rest0 := by simp
      rw [heq]
      exact hx
    have hih : containsSub tick3 (cs ++ tick2) = false := h2
    calc scanFirst att ((c :: cs) ++ (tick2 ++ rest0))
        = scanFirst att (c :: (cs ++ (tick2 ++ rest0))) := by rw [List.cons_append]
      _ = scanFirst att (cs ++ (tick2 ++ rest0)) := by simp only [scanFirst, hx']
      _ = scanFirst att (tick2 ++ rest0) := ih rest0 hih

/-- The lazy search for the closing delimiter finds exactly the closing
delimiter appended after `body`, provided the pattern (written as
`pa ++ pz` with `pz` of length 1) does not occur in `body`, not even
straddling into the first `|pa|` characters of the real closing
delimiter. -/
theorem splitOnFirst_boundary (pa pz : List Char) (hpz : pz.length = 1) :
    ∀ (body post : List Char), containsSub (pa ++ pz) (body ++ pa) = false →
      splitOnFirst (pa ++ pz) (body ++ ((pa ++ pz) ++ post)) = some (body, post) := by
  intro body
  induction body with
  | nil =>
    intro post _
    have hex : ∃ q qs, (pa ++ pz) ++ post = q :: qs := by
      cases hq : (pa ++ pz) ++ post with
      | nil =>
        exfalso
        have := congrArg List.length hq
        simp [hpz] at this
      | cons q qs => exact ⟨q, qs, rfl⟩
    obtain ⟨q, qs, hq⟩ := hex
    have hs : stripPre (pa ++ pz) (q :: qs) = some post := by
      rw [← hq]
      exact stripPre_self_append _ _
    calc splitOnFirst (pa ++ pz) ([] ++ ((pa ++ pz) ++ post))
        = splitOnFirst (pa ++ pz) (q :: qs) := by rw [List.nil_append, hq]
      _ = some ([], post) := by simp [splitOnFirst, hs]
  | cons c cs ih =>
    intro post h
    have h' : containsSub (pa ++ pz) (c :: (cs ++ pa)) = false := by simpa using h
    obtain ⟨h1, h2⟩ := containsSub_cons_false h'
    have hlen : (pa ++ pz).length ≤ (c :: (cs ++ pa)).length := by
      simp only [List.length_append, List.length_cons, hpz]
      omega
    have hnone : stripPre (pa ++ pz) (c :: (cs ++ ((pa ++ pz) ++ post))) = none := by
      have heq : c :: (cs ++ ((pa ++ pz) ++ post)) = (c :: (cs ++ pa)) ++ (pz ++ post) := by
        simp
      rw [heq]
      exact stripPre_none_append _ hlen h1
    have hih : containsSub (pa ++ pz) (cs ++ pa) = false := h2
    calc splitOnFirst (pa ++ pz) ((c :: cs) ++ ((pa ++ pz) ++ post))
        = splitOnFirst (pa ++ pz) (c :: (cs ++ ((pa ++ pz) ++ post))) := by
          rw [List.cons_append]
      _ = some (c :: cs, post) := by
          simp only [splitOnFirst, hnone, ih post hih]

/-! ### Helper lemmas: a tagged fence is found and captured exactly -/

theorem nlTick3_decomp : nlTick3 = nlT2 ++ tick1 := rfl

theorem tick3_decomp : tick3 = tick2 ++ tick1 := rfl

theorem tryTag_fence (tag body post : List Char)
    (hbody : containsSub nlTick3 (body ++ nlT2) = false) :
    tryTag tag (tick3 ++ (tag ++ (nl1 ++ (body ++ (nlTick3 ++ post))))) = some body := by
  have hpre : stripPre (tick3 ++ (tag ++ nl1))
      (tick3 ++ (tag ++ (nl1 ++ (body ++ (nlTick3 ++ post)))))
      = some (body ++ (nlTick3 ++ post)) := by
    have heq : tick3 ++ (tag ++ (nl1 ++ (body ++ (nlTick3 ++ post))))
        = (tick3 ++ (tag ++ nl1)) ++ (body ++ (nlTick3 ++ post)) := by simp
    rw [heq]
    exact stripPre_self_append _ _
  have hb : containsSub (nlT2 ++ tick1) (body ++ nlT2) = false := by
    rw [← nlTick3_decomp]
    exact hbody
  have hsplit : splitOnFirst nlTick3 (body ++ (nlTick3 ++ post)) = some (body, post) := by
    have := splitOnFirst_boundary nlT2 tick1 rfl body post hb
    rw [← nlTick3_decomp] at this
    simpa using this
  simp [tryTag, hpre, hsplit]

theorem tryTag_terraform_on_hcl (rest : List Char) :
    tryTag tTerraform (tick3 ++ (tHcl ++ (nl1 ++ rest))) = none := by
  have h : stripPre (tick3 ++ (tTerraform ++ nl1)) (tick3 ++ (tHcl ++ (nl1 ++ rest))) = none := by
    rw [stripPre_append, stripPre_self_append]
    show stripPre (tTerraform ++ nl1) (tHcl ++ (nl1 ++ rest)) = none
    have e1 : tTerraform ++ nl1 = 't' :: ("erraform".data ++ nl1) := rfl
    have e2 : tHcl ++ (nl1 ++ rest) = 'h' :: ("cl".data ++ (nl1 ++ rest)) := rfl
    rw [e1, e2]
    simp [stripPre]
  simp [tryTag, h]

theorem tryTag_hcl_on_terraform (rest : List Char) :
    tryTag tHcl (tick3 ++ (tTerraform ++ (nl1 ++ rest))) = none := by
  have h : stripPre (tick3 ++ (tHcl ++ nl1)) (tick3 ++ (tTerraform ++ (nl1 ++ rest))) = none := by
    rw [stripPre_append, stripPre_self_append]
    show stripPre (tHcl ++ nl1) (tTerraform ++ (nl1 ++ rest)) = none
    have e1 : tHcl ++ nl1 = 'h' :: ("cl".data ++ nl1) := rfl
    have e2 : tTerraform ++ (nl1 ++ rest) = 't' :: ("erraform".data ++ (nl1 ++ rest)) := rfl
    rw [e1, e2]
    simp [stripPre]
  simp [tryTag, h]

theorem attemptTags_fence_terraform (body post : List Char)
    (hbody : containsSub nlTick3 (body ++ nlT2) = false) :
    attemptTags [tTerraform, tHcl, []]
      (tick3 ++ (tTerraform ++ (nl1 ++ (body ++ (nlTick3 ++ post))))) = some body := by
  simp [attemptTags, tryTag_fence _ _ _ hbody]

theorem attemptTags_fence_hcl (body post : List Char)
    (hbody : containsSub nlTick3 (body ++ nlT2) = false) :
    attemptTags [tTerraform, tHcl, []]
      (tick3 ++ (tHcl ++ (nl1 ++ (body ++ (nlTick3 ++ post))))) = some body := by
  simp [attemptTags, tryTag_terraform_on_hcl, tryTag_fence _ _ _ hbody]

theorem scanFirst_fence (att : List Char → Option (List Char))
    (hatt : ∀ l, stripPre tick3 l = none → att l = none)
    (pre rest1 b : List Char)
    (hpre : containsSub tick3 (pre ++ tick2) = false)
    (hhit : att (tick3 ++ rest1) = some b) :
    scanFirst att (pre ++ (tick3 ++ rest1)) = some b := by
  have heq : pre ++ (tick3 ++ rest1) = pre ++ (tick2 ++ (tick1 ++ rest1)) := by
    rw [tick3_decomp]
    simp
  have heq2 : tick2 ++ (tick1 ++ rest1) = tick3 ++ rest1 := by
    rw [tick3_decomp]
    simp
  rw [heq, scanFirst_skip att hatt pre _ hpre, heq2]
  have hne : tick3 ++ rest1 ≠ [] := by
    intro hc
    have hlen := congrArg List.length hc
    have e3 : tick3.length = 3 := rfl
    simp only [List.length_append, e3, List.length_nil] at hlen
    omega
  exact scanFirst_cons_some hhit hne

/-! ### Helper lemmas: `pstrip` -/

theorem dropWhile_head_false {w : Char → Bool} {l t : List Char} {c : Char}
    (h : List.dropWhile w l = c :: t) : w c = false := by
  induction l with
  | nil => simp at h
  | cons a as ih =>
    rw [List.dropWhile_cons] at h
    by_cases hw : w a = true
    · rw [if_pos hw] at h
      exact ih h
    · rw [if_neg hw] at h
      cases h
      simpa using hw

theorem dropWhile_idem (w : Char → Bool) (l : List Char) :
    List.dropWhile w (List.dropWhile w l) = List.dropWhile w l := by
  cases hd : List.dropWhile w l with
  | nil => rfl
  | cons c t =>
    rw [List.dropWhile_cons, if_neg]
    simp [dropWhile_head_false hd]

theorem pstrip_idem (l : List Char) : pstrip (pstrip l) = pstrip l := by
  set A := List.dropWhile isWs l with hA
  set B := List.dropWhile isWs A.reverse with hB
  have hBA : List.dropWhile isWs B.reverse = B.reverse := by
    cases hBr : B.reverse with
    | nil => rfl
    | cons c t =>
      have hsuf : B <:+ A.reverse := by
        rw [hB]
        exact List.dropWhile_suffix _
      obtain ⟨u, hu⟩ := hsuf
      have hArev : A = B.reverse ++ u.reverse := by
        have := congrArg List.reverse hu
        simpa [List.reverse_append] using this.symm
      have hAc : A = c :: (t ++ u.reverse) := by
        rw [hArev, hBr]
        simp
      have hwc : isWs c = false := by
        apply dropWhile_head_false (l := l)
        rw [← hA]
        exact hAc
      rw [List.dropWhile_cons, if_neg]
      simp [hwc]
  show ((List.dropWhile isWs (pstrip l)).reverse.dropWhile isWs).reverse = pstrip l
  have h1 : List.dropWhile isWs (pstrip l) = pstrip l := by
    show List.dropWhile isWs B.reverse = B.reverse
    exact hBA
  rw [h1]
  show (List.dropWhile isWs B.reverse.reverse).reverse = B.reverse
  rw [List.reverse_reverse]
  rw [hB, dropWhile_idem]

/-- Every branch of the extractor returns a stripped string. -/
theorem pstrip_extract (s : List Char) :
    pstrip (extract_terraform_code s) = extract_terraform_code s := by
  unfold extract_terraform_code
  cases h1 : scanFirst (attemptTags [tTerraform, tHcl, []]) s with
  | some b => simp [pstrip_idem]
  | none =>
    cases h2 : scanFirst (attemptTags [[]]) s with
    | some b => simp [pstrip_idem]
    | none =>
      cases h3 : scanFirst attempt3 s with
      | some b => simp [pstrip_idem]
      | none => simp [pstrip_idem]

/-- If the response contains no triple backtick at all then every
pattern fails and the extractor returns the stripped response. -/
theorem extract_no_tick (s : List Char) (h : containsSub tick3 s = false) :
    extract_terraform_code s = pstrip s := by
  have h1 : scanFirst (attemptTags [tTerraform, tHcl, []]) s = none :=
    scanFirst_none _ (fun l hl => attemptTags_none_of_no_tick _ hl) s h
  have h2 : scanFirst (attemptTags [[]]) s = none :=
    scanFirst_none _ (fun l hl => attemptTags_none_of_no_tick _ hl) s h
  have h3 : scanFirst attempt3 s = none :=
    scanFirst_none _ (fun l hl => attempt3_none_of_no_tick hl) s h
  simp [extract_terraform_code, h1, h2, h3]

/-! ### Helper lemmas: the document splitter -/

theorem dash3_cons (x : List Char) : dash3 ++ x = '-' :: '-' :: '-' :: x := rfl

theorem containsSub_self_append (pat y : List Char) (hpat : pat ≠ []) :
    containsSub pat (pat ++ y) = true := by
  cases hq : pat ++ y with
  | nil =>
    cases pat with
    | nil => exact absurd rfl hpat
    | cons a as => simp at hq
  | cons q qs =>
    rw [containsSub_cons, ← hq, stripPre_self_append]
    rfl

theorem sdGo_sep (rest : List Char) :
    ∀ (d : List Char) (k : Nat) (acc : List Char), k ≤ 2 →
      containsSub dash3 ((List.replicate k '-' ++ d) ++ dash2) = false →
      sdGo (d ++ ('-' :: '-' :: '-' :: rest)) acc k
        = (acc.reverse ++ (List.replicate k '-' ++ d)) :: sdGo rest [] 0 := by
  intro d
  induction d with
  | nil =>
    intro k acc hk h
    interval_cases k
    · simp [sdGo]
    · exact absurd h (by decide)
    · exact absurd h (by decide)
  | cons c d' ih =>
    intro k acc hk h
    by_cases hc : c = '-'
    · subst hc
      interval_cases k
      · have h' : containsSub dash3 ((List.replicate 1 '-' ++ d') ++ dash2) = false := by
          simpa [List.replicate] using h
        calc sdGo (('-' :: d') ++ ('-' :: '-' :: '-' :: rest)) acc 0
            = sdGo (d' ++ ('-' :: '-' :: '-' :: rest)) acc 1 := by simp [sdGo]
          _ = (acc.reverse ++ (List.replicate 1 '-' ++ d')) :: sdGo rest [] 0 :=
              ih 1 acc (by omega) h'
          _ = (acc.reverse ++ (List.replicate 0 '-' ++ ('-' :: d'))) :: sdGo rest [] 0 := by
              simp [List.replicate]
      · have h' : containsSub dash3 ((List.replicate 2 '-' ++ d') ++ dash2) = false := by
          have heq : (List.replicate 1 '-' ++ ('-' :: d')) ++ dash2
              = (List.replicate 2 '-' ++ d') ++ dash2 := rfl
          rw [heq] at h
          exact h
        calc sdGo (('-' :: d') ++ ('-' :: '-' :: '-' :: rest)) acc 1
            = sdGo (d' ++ ('-' :: '-' :: '-' :: rest)) acc 2 := by simp [sdGo]
          _ = (acc.reverse ++ (List.replicate 2 '-' ++ d')) :: sdGo rest [] 0 :=
              ih 2 acc (by omega) h'
          _ = (acc.reverse ++ (List.replicate 1 '-' ++ ('-' :: d'))) :: sdGo rest [] 0 := by
              have heq : List.replicate 2 '-' ++ d' = List.replicate 1 '-' ++ ('-' :: d') := rfl
              rw [heq]
      · exfalso
        have heq : (List.replicate 2 '-' ++ ('-' :: d')) ++ dash2
            = dash3 ++ (d' ++ dash2) := rfl
        rw [heq, containsSub_self_append _ _ (by decide)] at h
        simp at h
    · have hstep : sdGo ((c :: d') ++ ('-' :: '-' :: '-' :: rest)) acc k
          = sdGo (d' ++ ('-' :: '-' :: '-' :: rest)) (c :: (List.replicate k '-' ++ acc)) 0 := by
        simp [sdGo, hc]
      have h' : containsSub dash3 ((List.replicate 0 '-' ++ d') ++ dash2) = false := by
        have heq : (List.replicate k '-' ++ (c :: d')) ++ dash2
            = (List.replicate k '-' ++ [c]) ++ (d' ++ dash2) := by simp
        rw [heq] at h
        simpa using containsSub_append_right h
      calc sdGo ((c :: d') ++ ('-' :: '-' :: '-' :: rest)) acc k
          = sdGo (d' ++ ('-' :: '-' :: '-' :: rest)) (c :: (List.replicate k '-' ++ acc)) 0 :=
            hstep
        _ = ((c :: (List.replicate k '-' ++ acc)).reverse ++ (List.replicate 0 '-' ++ d'))
              :: sdGo rest [] 0 :=
            ih 0 _ (by omega) h'
        _ = (acc.reverse ++ (List.replicate k '-' ++ (c :: d'))) :: sdGo rest [] 0 := by
            simp [List.reverse_cons, List.reverse_append, List.reverse_replicate]

theorem sdGo_last :
    ∀ (d : List Char) (k : Nat) (acc : List Char), k ≤ 2 →
      containsSub dash3 (List.replicate k '-' ++ d) = false →
      sdGo d acc k = [acc.reverse ++ (List.replicate k '-' ++ d)] := by
  intro d
  induction d with
  | nil =>
    intro k acc hk _
    show [(List.replicate k '-' ++ acc).reverse] = _
    simp [List.reverse_append, List.reverse_replicate]
  | cons c d' ih =>
    intro k acc hk h
    by_cases hc : c = '-'
    · subst hc
      interval_cases k
      · have h' : containsSub dash3 (List.replicate 1 '-' ++ d') = false := by
          simpa [List.replicate] using h
        calc sdGo ('-' :: d') acc 0 = sdGo d' acc 1 := by simp [sdGo]
          _ = [acc.reverse ++ (List.replicate 1 '-' ++ d')] := ih 1 acc (by omega) h'
          _ = [acc.reverse ++ (List.replicate 0 '-' ++ ('-' :: d'))] := by simp [List.replicate]
      · have h' : containsSub dash3 (List.replicate 2 '-' ++ d') = false := by
          have heq : List.replicate 1 '-' ++ ('-' :: d') = List.replicate 2 '-' ++ d' := rfl
          rw [heq] at h
          exact h
        calc sdGo ('-' :: d') acc 1 = sdGo d' acc 2 := by simp [sdGo]
          _ = [acc.reverse ++ (List.replicate 2 '-' ++ d')] := ih 2 acc (by omega) h'
          _ = [acc.reverse ++ (List.replicate 1 '-' ++ ('-' :: d'))] := by
              have heq : List.replicate 2 '-' ++ d' = List.replicate 1 '-' ++ ('-' :: d') := rfl
              rw [heq]
      · exfalso
        have heq : List.replicate 2 '-' ++ ('-' :: d') = dash3 ++ d' := rfl
        rw [heq, containsSub_self_append _ _ (by decide)] at h
        simp at h
    · have hstep : sdGo (c :: d') acc k
          = sdGo d' (c :: (List.replicate k '-' ++ acc)) 0 := by
        simp [sdGo, hc]
      have h' : containsSub dash3 (List.replicate 0 '-' ++ d') = false := by
        have heq : List.replicate k '-' ++ (c :: d')
            = (List.replicate k '-' ++ [c]) ++ d' := by simp
        rw [heq] at h
        simpa using containsSub_append_right h
      calc sdGo (c :: d') acc k
          = sdGo d' (c :: (List.replicate k '-' ++ acc)) 0 := hstep
        _ = [(c :: (List.replicate k '-' ++ acc)).reverse ++ (List.replicate 0 '-' ++ d')] :=
            ih 0 _ (by omega) h'
        _ = [acc.reverse ++ (List.replicate k '-' ++ (c :: d'))] := by
            simp [List.reverse_cons, List.reverse_append, List.reverse_replicate]

theorem pySplitDashes_two (d1 d2 : List Char)
    (h1 : containsSub dash3 (d1 ++ dash2) = false)
    (h2 : containsSub dash3 d2 = false) :
    pySplitDashes (d1 ++ (dash3 ++ d2)) = [d1, d2] := by
  unfold pySplitDashes
  rw [dash3_cons]
  rw [sdGo_sep d2 d1 0 [] (by omega) (by simpa using h1)]
  rw [sdGo_last d2 0 [] (by omega) (by simpa using h2)]
  simp

theorem pySplitDashes_three (d1 d2 d3 : List Char)
    (h1 : containsSub dash3 (d1 ++ dash2) = false)
    (h2 : containsSub dash3 (d2 ++ dash2) = false)
    (h3 : containsSub dash3 d3 = false) :
    pySplitDashes (d1 ++ (dash3 ++ (d2 ++ (dash3 ++ d3)))) = [d1, d2, d3] := by
  unfold pySplitDashes
  rw [show dash3 ++ (d2 ++ (dash3 ++ d3)) = '-' :: '-' :: '-' :: (d2 ++ (dash3 ++ d3)) from rfl]
  rw [sdGo_sep _ d1 0 [] (by omega) (by simpa using h1)]
  rw [show dash3 ++ d3 = '-' :: '-' :: '-' :: d3 from rfl]
  rw [sdGo_sep d3 d2 0 [] (by omega) (by simpa using h2)]
  rw [sdGo_last d3 0 [] (by omega) (by simpa using h3)]
  simp

/-! ### Helper lemmas: the manifest parser -/

theorem safeLoad_nil : safeLoad [] = .ok .none := rfl

theorem ne_nil_of_safeLoad_dict {s : List Char} {m : List (List Char × PyVal)}
    (h : safeLoad s = .ok (.dict m)) : s ≠ [] := by
  intro he
  subst he
  rw [safeLoad_nil] at h
  simp at h

theorem pyGet_any {d : List (List Char × PyVal)} {k : List Char} {v : PyVal}
    (h : pyGet d k = some v) : d.any (fun p => p.1 == k) = true := by
  unfold pyGet at h
  obtain ⟨p, hf, -⟩ := Option.map_eq_some'.mp h
  have hp := List.find?_some hf
  have hm : p ∈ d := List.mem_reverse.mp (List.mem_of_find?_eq_some hf)
  exact List.any_eq_true.mpr ⟨p, hm, hp⟩

theorem kindOf_dict {m : List (List Char × PyVal)} {K : List Char}
    (hg : pyGet m kindKey = some (.str K)) :
    kindOf (.dict m) = .ok (some (lowerL K)) := by
  have hany : m.any (fun p => p.1 == kindKey) = true := pyGet_any hg
  have htr : truthy (.dict m) = true := by
    cases m with
    | nil => simp at hany
    | cons a as => simp [truthy]
  have hhk : pyHasKind (.dict m) = true := by simpa [pyHasKind] using hany
  simp [kindOf, htr, hhk, hg]

theorem tryKind_dict {s : List Char} {m : List (List Char × PyVal)} {K : List Char}
    (hs : safeLoad s = .ok (.dict m)) (hg : pyGet m kindKey = some (.str K)) :
    tryKind s = .ok (some (lowerL K)) := by
  simp [tryKind, hs, kindOf_dict hg]

theorem handleDoc_insert {m : List (List Char × List Char)} {s k : List Char}
    (h : tryKind s = .ok (some k)) : handleDoc m s = dictInsert m k s := by
  simp [handleDoc, h]

theorem handleDoc_drop {m : List (List Char × List Char)} {s : List Char}
    (h : tryKind s = .ok none) : handleDoc m s = m := by
  simp [handleDoc, h]

theorem handleDoc_fallback {m : List (List Char × List Char)} {s : List Char}
    (h : tryKind s = .error ()) : handleDoc m s = fallbackInsert s m := by
  simp [handleDoc, h]

theorem dictInsert_fresh {m : List (List Char × List Char)} {k v : List Char}
    (h : m.any (fun p => p.1 == k) = false) : dictInsert m k v = m ++ [(k, v)] := by
  simp [dictInsert, h]

/-! ### Helper lemmas: outputs are contiguous substrings of the input -/

theorem inf_of_pre {α : Type} {l₁ l₂ : List α} (h : l₁ <+: l₂) : l₁ <:+: l₂ := by
  obtain ⟨t, ht⟩ := h
  exact ⟨[], t, by simpa using ht⟩

theorem inf_of_suf {α : Type} {l₁ l₂ : List α} (h : l₁ <:+ l₂) : l₁ <:+: l₂ := by
  obtain ⟨s, hs⟩ := h
  exact ⟨s, [], by simpa using hs⟩

theorem pstrip_inf (l : List Char) : pstrip l <:+: l := by
  have h1 : List.dropWhile isWs l <:+ l := List.dropWhile_suffix _
  obtain ⟨u, hu⟩ := List.dropWhile_suffix (l := (List.dropWhile isWs l).reverse) isWs
  have hpre : pstrip l <+: List.dropWhile isWs l := by
    refine ⟨u.reverse, ?_⟩
    have := congrArg List.reverse hu
    simpa [pstrip, List.reverse_append] using this
  exact (inf_of_pre hpre).trans (inf_of_suf h1)

theorem splitOnFirst_first_pre {pat : List Char} :
    ∀ {l b r : List Char}, splitOnFirst pat l = some (b, r) → b <+: l := by
  intro l
  induction l with
  | nil =>
    intro b r h
    unfold splitOnFirst at h
    cases hs : stripPre pat [] with
    | none => rw [hs] at h; simp at h
    | some rest =>
      rw [hs] at h
      simp at h
      simp [h.1]
  | cons c cs ih =>
    intro b r h
    unfold splitOnFirst at h
    cases hs : stripPre pat (c :: cs) with
    | some rest =>
      rw [hs] at h
      simp at h
      simp [h.1]
    | none =>
      rw [hs] at h
      cases hr : splitOnFirst pat cs with
      | none => rw [hr] at h; simp at h
      | some pq =>
        rw [hr] at h
        obtain ⟨pre, post⟩ := pq
        simp at h
        obtain ⟨t, ht⟩ := ih hr
        refine ⟨t, ?_⟩
        rw [← h.1]
        simp [ht]

theorem stripPre_suf {p l r : List Char} (h : stripPre p l = some r) : r <:+ l := by
  rw [stripPre_eq_some h]
  exact List.suffix_append _ _

theorem tryTag_inf {tag l b : List Char} (h : tryTag tag l = some b) : b <:+: l := by
  unfold tryTag at h
  obtain ⟨rest, hs, hm⟩ := Option.bind_eq_some.mp h
  obtain ⟨pq, hr, he⟩ := Option.map_eq_some'.mp hm
  obtain ⟨body, post⟩ := pq
  cases he
  exact (inf_of_pre (splitOnFirst_first_pre hr)).trans (inf_of_suf (stripPre_suf hs))

theorem attemptTags_inf {l b : List Char} :
    ∀ (tags : List (List Char)), attemptTags tags l = some b → b <:+: l := by
  intro tags
  induction tags with
  | nil => intro h; simp [attemptTags] at h
  | cons t ts ih =>
    intro h
    unfold attemptTags at h
    cases ht : tryTag t l with
    | some b' =>
      rw [ht] at h
      simp at h
      subst h
      exact tryTag_inf ht
    | none =>
      rw [ht] at h
      exact ih h

theorem attempt3_inf {l b : List Char} (h : attempt3 l = some b) : b <:+: l := by
  unfold attempt3 at h
  obtain ⟨rest, hs, hm⟩ := Option.bind_eq_some.mp h
  obtain ⟨pq, hr, he⟩ := Option.map_eq_some'.mp hm
  obtain ⟨body, post⟩ := pq
  cases he
  exact (inf_of_pre (splitOnFirst_first_pre hr)).trans (inf_of_suf (stripPre_suf hs))

theorem scanFirst_inf {att : List Char → Option (List Char)}
    (hatt : ∀ l b, att l = some b → b <:+: l) :
    ∀ {l b : List Char}, scanFirst att l = some b → b <:+: l := by
  intro l
  induction l with
  | nil => intro b h; simp [scanFirst] at h
  | cons c cs ih =>
    intro b h
    unfold scanFirst at h
    cases ha : att (c :: cs) with
    | some b' =>
      rw [ha] at h
      simp at h
      subst h
      exact hatt _ _ ha
    | none =>
      rw [ha] at h
      exact List.infix_cons (ih h)

theorem extract_inf (s : List Char) : extract_terraform_code s <:+: s := by
  unfold extract_terraform_code
  cases h1 : scanFirst (attemptTags [tTerraform, tHcl, []]) s with
  | some b =>
    exact (pstrip_inf b).trans (scanFirst_inf (fun _ _ h => attemptTags_inf _ h) h1)
  | none =>
    cases h2 : scanFirst (attemptTags [[]]) s with
    | some b =>
      exact (pstrip_inf b).trans (scanFirst_inf (fun _ _ h => attemptTags_inf _ h) h2)
    | none =>
      cases h3 : scanFirst attempt3 s with
      | some b =>
        exact (pstrip_inf b).trans (scanFirst_inf (fun _ _ h => attempt3_inf h) h3)
      | none => exact pstrip_inf s

theorem mem_sdGo_inf :
    ∀ (l acc : List Char) (k : Nat) (f : List Char), f ∈ sdGo l acc k →
      f <:+: (acc.reverse ++ (List.replicate k '-' ++ l)) := by
  intro l
  induction l with
  | nil =>
    intro acc k f h
    simp [sdGo] at h
    subst h
    simp [List.reverse_append, List.reverse_replicate]
  | cons c cs ih =>
    intro acc k f h
    by_cases hc : c = '-'
    · subst hc
      by_cases hk : k = 2
      · subst hk
        rw [show sdGo ('-' :: cs) acc 2 = acc.reverse :: sdGo cs [] 0 from by simp [sdGo]] at h
        rcases List.mem_cons.mp h with h | h
        · subst h
          exact inf_of_pre (List.prefix_append _ _)
        · have hinf : f <:+: cs := by simpa using ih [] 0 f h
          have hsuf : cs <:+: acc.reverse ++ (List.replicate 2 '-' ++ ('-' :: cs)) := by
            apply inf_of_suf
            exact ⟨acc.reverse ++ (List.replicate 2 '-' ++ ['-']), by simp⟩
          exact hinf.trans hsuf
      · rw [show sdGo ('-' :: cs) acc k = sdGo cs acc (k + 1) from by simp [sdGo, hk]] at h
        have := ih acc (k + 1) f h
        have heq : acc.reverse ++ (List.replicate (k + 1) '-' ++ cs)
            = acc.reverse ++ (List.replicate k '-' ++ ('-' :: cs)) := by
          rw [List.replicate_succ']
          simp
        rwa [heq] at this
    · rw [show sdGo (c :: cs) acc k = sdGo cs (c :: (List.replicate k '-' ++ acc)) 0 from by
        simp [sdGo, hc]] at h
      have := ih (c :: (List.replicate k '-' ++ acc)) 0 f h
      have heq : (c :: (List.replicate k '-' ++ acc)).reverse ++ (List.replicate 0 '-' ++ cs)
          = acc.reverse ++ (List.replicate k '-' ++ (c :: cs)) := by
        simp [List.reverse_append, List.reverse_replicate]
      rwa [heq] at this

theorem mem_pySplitDashes_inf {s f : List Char} (h : f ∈ pySplitDashes s) : f <:+: s := by
  have := mem_sdGo_inf s [] 0 f h
  simpa using this

theorem mem_dictInsert {m : List (List Char × List Char)} {k v : List Char}
    {kv : List Char × List Char} (h : kv ∈ dictInsert m k v) : kv ∈ m ∨ kv.2 = v := by
  unfold dictInsert at h
  by_cases hc : m.any (fun p => p.1 == k) = true
  · rw [if_pos hc] at h
    obtain ⟨q, hq, he⟩ := List.mem_map.mp h
    by_cases hqk : (q.1 == k) = true
    · rw [if_pos hqk] at he
      right
      rw [← he]
    · rw [if_neg hqk] at he
      left
      rw [← he]
      exact hq
  · rw [if_neg hc] at h
    rcases List.mem_append.mp h with h | h
    · left; exact h
    · right
      have : kv = (k, v) := by simpa using h
      rw [this]

theorem mem_fallbackInsert {doc : List Char} {m : List (List Char × List Char)}
    {kv : List Char × List Char} (h : kv ∈ fallbackInsert doc m) : kv ∈ m ∨ kv.2 = doc := by
  unfold fallbackInsert at h
  split_ifs at h
  · exact mem_dictInsert h
  · exact mem_dictInsert h
  · exact mem_dictInsert h
  · left; exact h

theorem mem_handleDoc {m : List (List Char × List Char)} {doc : List Char}
    {kv : List Char × List Char} (h : kv ∈ handleDoc m doc) : kv ∈ m ∨ kv.2 = doc := by
  unfold handleDoc at h
  cases htk : tryKind doc with
  | error e =>
    rw [htk] at h
    exact mem_fallbackInsert h
  | ok o =>
    cases o with
    | none =>
      rw [htk] at h
      left; exact h
    | some k =>
      rw [htk] at h
      exact mem_dictInsert h

theorem mem_parse_foldl :
    ∀ (docs : List (List Char)) (m0 : List (List Char × List Char))
      (kv : List Char × List Char),
      kv ∈ docs.foldl parseStep m0 →
      kv ∈ m0 ∨ ∃ d ∈ docs, kv.2 = pstrip d := by
  intro docs
  induction docs with
  | nil =>
    intro m0 kv h
    left
    simpa using h
  | cons d ds ih =>
    intro m0 kv h
    simp only [List.foldl_cons] at h
    rcases ih _ kv h with hin | ⟨d', hd', he⟩
    · unfold parseStep at hin
      by_cases hemp : pstrip d = []
      · rw [if_pos hemp] at hin
        left; exact hin
      · rw [if_neg hemp] at hin
        rcases mem_handleDoc hin with hin' | he'
        · left; exact hin'
        · right; exact ⟨d, List.mem_cons_self _ _, he'⟩
    · right
      exact ⟨d', List.mem_cons_of_mem _ hd', he⟩

/-! ### The claims -/

/-- C1 counterexample: the input consists of nothing but a
language-tagged code fence with tag `yaml` and body `x`, yet the
extractor returns `yaml\nx` (the inline pattern's capture, which keeps
the tag), not the trimmed body `x`. -/
theorem c1_counterexample :
    extract_terraform_code ("```yaml\nx\n```".data) = ("yaml\nx".data) ∧
      ¬ extract_terraform_code ("```yaml\nx\n```".data) = ("x".data) := by
  decide

/-- C1 (amended): for an input containing a language-tagged code fence
whose tag is one the first pattern recognises (`terraform` or `hcl`),
whose body does not contain (or reach into) a newline-plus-closing-fence
sequence, and whose preceding prose cannot open a fence (no triple
backtick, not even merging with the fence's opening backticks),
`extract_terraform_code` returns exactly the fence body with leading and
trailing whitespace trimmed, regardless of the prose after the fence. -/
theorem c1_amended_tagged_fence (pre tag body post : List Char)
    (htag : tag = tTerraform ∨ tag = tHcl)
    (hpre : containsSub tick3 (pre ++ tick2) = false)
    (hbody : containsSub nlTick3 (body ++ nlT2) = false) :
    extract_terraform_code
      (pre ++ (tick3 ++ (tag ++ (nl1 ++ (body ++ (nlTick3 ++ post)))))) = pstrip body := by
  have hatt : ∀ l, stripPre tick3 l = none → attemptTags [tTerraform, tHcl, []] l = none :=
    fun l hl => attemptTags_none_of_no_tick _ hl
  have hhit : attemptTags [tTerraform, tHcl, []]
      (tick3 ++ (tag ++ (nl1 ++ (body ++ (nlTick3 ++ post))))) = some body := by
    rcases htag with h | h
    · subst h
      exact attemptTags_fence_terraform body post hbody
    · subst h
      exact attemptTags_fence_hcl body post hbody
  have hscan : scanFirst (attemptTags [tTerraform, tHcl, []])
      (pre ++ (tick3 ++ (tag ++ (nl1 ++ (body ++ (nlTick3 ++ post)))))) = some body :=
    scanFirst_fence _ hatt pre _ body hpre hhit
  simp [extract_terraform_code, hscan]

/-- Witness for the amended C1, at the spec's own example. -/
theorem c1_amended_tagged_fence_witness :
    extract_terraform_code
      (("Here:\n".data) ++ (tick3 ++ (tHcl ++ (nl1 ++
        (("resource \"x\"".data) ++ (nlTick3 ++ ("\nThanks".data)))))))
      = pstrip ("resource \"x\"".data) :=
  c1_amended_tagged_fence _ _ _ _ (Or.inr rfl) (by decide) (by decide)

/-- C4: on an input containing no fence marker (no occurrence of three
backticks) every pattern fails and `extract_terraform_code` returns the
whole input, trimmed and otherwise unchanged — the same shape of result
as a successful extraction. -/
theorem c4_no_fence_returns_trimmed (s : List Char)
    (h : containsSub tick3 s = false) :
    extract_terraform_code s = pstrip s :=
  extract_no_tick s h

/-- Witness for C4 at the spec's example `"  plain text  "`. -/
theorem c4_no_fence_returns_trimmed_witness :
    extract_terraform_code ("  plain text  ".data) = pstrip ("  plain text  ".data) ∧
      pstrip ("  plain text  ".data) = ("plain text".data) :=
  ⟨c4_no_fence_returns_trimmed _ (by decide), by decide⟩

/-- C6: both extractor operations are total functions of their input:
they are plain computable functions in this model (the Python code
reaches no `raise`: `re.findall` is total and the fragment loop catches
every exception with a bare `except:`), and in particular they return
results on the empty string and on malformed text. -/
theorem c6_extractors_total :
    (∀ s : List Char, ∃ t, extract_terraform_code s = t) ∧
    (∀ s : List Char, ∃ m, parse_k8s_manifests s = m) ∧
    extract_terraform_code [] = [] ∧ parse_k8s_manifests [] = [] ∧
    extract_terraform_code ("```".data) = ("```".data) ∧
    parse_k8s_manifests ("---".data) = [] := by
  refine ⟨fun s => ⟨_, rfl⟩, fun s => ⟨_, rfl⟩, rfl, rfl, ?_, ?_⟩ <;> decide

/-- C7 counterexample: on `"```\na```b```c\n```"` the extractor returns
`"a```b```c"`; running it again on that output matches the inline
pattern and returns `"b"`, so the extractor is not idempotent on its own
output. -/
theorem c7_counterexample :
    extract_terraform_code ("```\na```b```c\n```".data) = ("a```b```c".data) ∧
      extract_terraform_code (extract_terraform_code ("```\na```b```c\n```".data)) = ("b".data) ∧
      ¬ extract_terraform_code (extract_terraform_code ("```\na```b```c\n```".data))
          = extract_terraform_code ("```\na```b```c\n```".data) := by
  decide

/-- C7 (amended): the extractor is idempotent on every output that is
fence free (contains no three consecutive backticks); an output that
still contains fence markers can be re-parsed differently. -/
theorem c7_amended_idempotent_when_fence_free (s : List Char)
    (h : containsSub tick3 (extract_terraform_code s) = false) :
    extract_terraform_code (extract_terraform_code s) = extract_terraform_code s := by
  rw [extract_no_tick _ h, pstrip_extract]

/-- Witness for the amended C7. -/
theorem c7_amended_idempotent_when_fence_free_witness :
    extract_terraform_code (extract_terraform_code ("hello world".data))
      = extract_terraform_code ("hello world".data) :=
  c7_amended_idempotent_when_fence_free _ (by decide)

/-- C8: every value the Artifact Extractor produces is derived from its
single input response: the extractor's result, and every value in the
manifest mapping, is a contiguous substring of the input string. -/
theorem c8_outputs_are_substrings (s : List Char) :
    extract_terraform_code s <:+: s ∧
      ∀ kv ∈ parse_k8s_manifests s, kv.2 <:+: s := by
  refine ⟨extract_inf s, ?_⟩
  intro kv hkv
  unfold parse_k8s_manifests at hkv
  rcases mem_parse_foldl _ _ _ hkv with h0 | ⟨d, hd, he⟩
  · simp at h0
  · rw [he]
    exact (pstrip_inf d).trans (mem_pySplitDashes_inf hd)

/-- Witness for C8 on a concrete manifest response. -/
theorem c8_outputs_are_substrings_witness :
    extract_terraform_code ("kind: Service".data) <:+: ("kind: Service".data) ∧
      (("service".data, "kind: Service".data) : List Char × List Char).2
        <:+: ("kind: Service".data) :=
  ⟨(c8_outputs_are_substrings _).1,
    (c8_outputs_are_substrings _).2 (("service".data, "kind: Service".data)) (by decide)⟩

theorem parseStep_handle {m : List (List Char × List Char)} {d : List Char}
    (hne : pstrip d ≠ []) : parseStep m d = handleDoc m (pstrip d) := by
  simp [parseStep, hne]

theorem isEmpty_false_of_ne {l : List Char} (h : l ≠ []) : l.isEmpty = false := by
  cases l with
  | nil => exact absurd rfl h
  | cons a as => rfl

/-- C2: a response made of three fragments separated by the `---`
document separator (with unambiguous boundaries: no `---` inside a
fragment and no fragment bleeding dashes into a separator), each of
which parses to a mapping declaring a string `kind` whose lower-casings
are pairwise distinct, yields exactly the three-entry mapping keyed by
the lower-cased kind names, holding the trimmed fragment texts. -/
theorem c2_three_distinct_kinds (d1 d2 d3 : List Char)
    (m1 m2 m3 : List (List Char × PyVal)) (K1 K2 K3 : List Char)
    (hs1 : safeLoad (pstrip d1) = .ok (.dict m1)) (hg1 : pyGet m1 kindKey = some (.str K1))
    (hs2 : safeLoad (pstrip d2) = .ok (.dict m2)) (hg2 : pyGet m2 kindKey = some (.str K2))
    (hs3 : safeLoad (pstrip d3) = .ok (.dict m3)) (hg3 : pyGet m3 kindKey = some (.str K3))
    (hb1 : containsSub dash3 (d1 ++ dash2) = false)
    (hb2 : containsSub dash3 (d2 ++ dash2) = false)
    (hb3 : containsSub dash3 d3 = false)
    (h12 : lowerL K1 ≠ lowerL K2) (h13 : lowerL K1 ≠ lowerL K3)
    (h23 : lowerL K2 ≠ lowerL K3) :
    parse_k8s_manifests (d1 ++ (dash3 ++ (d2 ++ (dash3 ++ d3))))
      = [(lowerL K1, pstrip d1), (lowerL K2, pstrip d2), (lowerL K3, pstrip d3)] := by
  have hne1 : pstrip d1 ≠ [] := ne_nil_of_safeLoad_dict hs1
  have hne2 : pstrip d2 ≠ [] := ne_nil_of_safeLoad_dict hs2
  have hne3 : pstrip d3 ≠ [] := ne_nil_of_safeLoad_dict hs3
  have ht1 : tryKind (pstrip d1) = .ok (some (lowerL K1)) := tryKind_dict hs1 hg1
  have ht2 : tryKind (pstrip d2) = .ok (some (lowerL K2)) := tryKind_dict hs2 hg2
  have ht3 : tryKind (pstrip d3) = .ok (some (lowerL K3)) := tryKind_dict hs3 hg3
  have e1 : parseStep [] d1 = [(lowerL K1, pstrip d1)] := by
    rw [parseStep_handle hne1, handleDoc_insert ht1, dictInsert_fresh (by simp)]
    rfl
  have e2 : parseStep [(lowerL K1, pstrip d1)] d2
      = [(lowerL K1, pstrip d1), (lowerL K2, pstrip d2)] := by
    rw [parseStep_handle hne2, handleDoc_insert ht2, dictInsert_fresh ?hf]
    case hf =>
      simp only [List.any_cons, List.any_nil, Bool.or_false, beq_eq_false_iff_ne, ne_eq]
      exact h12
    rfl
  have e3 : parseStep [(lowerL K1, pstrip d1), (lowerL K2, pstrip d2)] d3
      = [(lowerL K1, pstrip d1), (lowerL K2, pstrip d2), (lowerL K3, pstrip d3)] := by
    rw [parseStep_handle hne3, handleDoc_insert ht3, dictInsert_fresh ?hf]
    case hf =>
      simp only [List.any_cons, List.any_nil, Bool.or_false, Bool.or_eq_false_iff,
        beq_eq_false_iff_ne, ne_eq]
      exact ⟨h13, h23⟩
    rfl
  unfold parse_k8s_manifests
  rw [pySplitDashes_three d1 d2 d3 hb1 hb2 hb3, List.foldl_cons, List.foldl_cons,
    List.foldl_cons, List.foldl_nil, e1, e2, e3]

/-- Witness for C2 at a three-manifest response. -/
theorem c2_three_distinct_kinds_witness :
    parse_k8s_manifests
      (("kind: Deployment\nx: y".data) ++ (dash3 ++ (("kind: Service".data) ++ (dash3 ++ ("kind: Ingress".data)))))
      = [(lowerL ("Deployment".data), pstrip ("kind: Deployment\nx: y".data)),
         (lowerL ("Service".data), pstrip ("kind: Service".data)),
         (lowerL ("Ingress".data), pstrip ("kind: Ingress".data))] :=
  c2_three_distinct_kinds _ _ _
    [(("kind".data), .str ("Deployment".data)), (("x".data), .str ("y".data))]
    [(("kind".data), .str ("Service".data))]
    [(("kind".data), .str ("Ingress".data))]
    _ _ _ (by rfl) (by rfl) (by rfl) (by rfl) (by rfl) (by rfl)
    (by decide) (by decide) (by decide) (by decide) (by decide) (by decide)

/-- C5: when the two fragments of a response declare the same `kind`
(after case folding), the resulting mapping has a single entry for that
kind holding the later fragment's trimmed text (last-write-wins). -/
theorem c5_duplicate_kind_last_wins (d1 d2 : List Char)
    (m1 m2 : List (List Char × PyVal)) (K1 K2 : List Char)
    (hs1 : safeLoad (pstrip d1) = .ok (.dict m1)) (hg1 : pyGet m1 kindKey = some (.str K1))
    (hs2 : safeLoad (pstrip d2) = .ok (.dict m2)) (hg2 : pyGet m2 kindKey = some (.str K2))
    (hb1 : containsSub dash3 (d1 ++ dash2) = false)
    (hb2 : containsSub dash3 d2 = false)
    (hk : lowerL K1 = lowerL K2) :
    parse_k8s_manifests (d1 ++ (dash3 ++ d2)) = [(lowerL K1, pstrip d2)] := by
  have hne1 : pstrip d1 ≠ [] := ne_nil_of_safeLoad_dict hs1
  have hne2 : pstrip d2 ≠ [] := ne_nil_of_safeLoad_dict hs2
  have ht1 : tryKind (pstrip d1) = .ok (some (lowerL K1)) := tryKind_dict hs1 hg1
  have ht2 : tryKind (pstrip d2) = .ok (some (lowerL K2)) := tryKind_dict hs2 hg2
  have e1 : parseStep [] d1 = [(lowerL K1, pstrip d1)] := by
    rw [parseStep_handle hne1, handleDoc_insert ht1, dictInsert_fresh (by simp)]
    rfl
  have e2 : parseStep [(lowerL K1, pstrip d1)] d2 = [(lowerL K1, pstrip d2)] := by
    rw [parseStep_handle hne2, handleDoc_insert ht2, ← hk]
    simp [dictInsert]
  unfold parse_k8s_manifests
  rw [pySplitDashes_two d1 d2 hb1 hb2, List.foldl_cons, List.foldl_cons, List.foldl_nil, e1, e2]

/-- Witness for C5: the same kind declared twice with different case. -/
theorem c5_duplicate_kind_last_wins_witness :
    parse_k8s_manifests (("kind: Deployment\nreplicas: 1".data) ++ (dash3 ++ ("kind: deployment\nreplicas: 2".data)))
      = [(lowerL ("Deployment".data), pstrip ("kind: deployment\nreplicas: 2".data))] :=
  c5_duplicate_kind_last_wins _ _
    [(("kind".data), .str ("Deployment".data)), (("replicas".data), .str ("1".data))]
    [(("kind".data), .str ("deployment".data)), (("replicas".data), .str ("2".data))]
    _ _ (by rfl) (by rfl) (by rfl) (by rfl) (by decide) (by decide) (by decide)

/-- C3: in a three-fragment response with unambiguous separators, a
non-empty fragment for which the structured parse yields no usable
`kind` (either the guard fails without an exception, or an exception is
raised and none of the literal markers `Deployment`/`Service`/`Ingress`
occurs in the fragment) is simply absent from the returned mapping: the
other two fragments (with distinct kinds) appear, the mapping has one
entry fewer than the number of non-empty fragments, and no error or
report is produced (the function returns an ordinary mapping). -/
theorem c3_undecided_fragment_dropped (d1 d2 d3 : List Char)
    (m1 m3 : List (List Char × PyVal)) (K1 K3 : List Char)
    (hs1 : safeLoad (pstrip d1) = .ok (.dict m1)) (hg1 : pyGet m1 kindKey = some (.str K1))
    (hs3 : safeLoad (pstrip d3) = .ok (.dict m3)) (hg3 : pyGet m3 kindKey = some (.str K3))
    (hne2 : pstrip d2 ≠ [])
    (hdrop : tryKind (pstrip d2) = .ok none ∨
      (tryKind (pstrip d2) = .error () ∧
        containsSub mDeployment (pstrip d2) = false ∧
        containsSub mService (pstrip d2) = false ∧
        containsSub mIngress (pstrip d2) = false))
    (hb1 : containsSub dash3 (d1 ++ dash2) = false)
    (hb2 : containsSub dash3 (d2 ++ dash2) = false)
    (hb3 : containsSub dash3 d3 = false)
    (h13 : lowerL K1 ≠ lowerL K3) :
    parse_k8s_manifests (d1 ++ (dash3 ++ (d2 ++ (dash3 ++ d3))))
      = [(lowerL K1, pstrip d1), (lowerL K3, pstrip d3)] ∧
    (parse_k8s_manifests (d1 ++ (dash3 ++ (d2 ++ (dash3 ++ d3))))).length + 1
      = ((pySplitDashes (d1 ++ (dash3 ++ (d2 ++ (dash3 ++ d3))))).filter
          (fun d => !(pstrip d).isEmpty)).length := by
  have hne1 : pstrip d1 ≠ [] := ne_nil_of_safeLoad_dict hs1
  have hne3 : pstrip d3 ≠ [] := ne_nil_of_safeLoad_dict hs3
  have ht1 : tryKind (pstrip d1) = .ok (some (lowerL K1)) := tryKind_dict hs1 hg1
  have ht3 : tryKind (pstrip d3) = .ok (some (lowerL K3)) := tryKind_dict hs3 hg3
  have hsplit := pySplitDashes_three d1 d2 d3 hb1 hb2 hb3
  have e1 : parseStep [] d1 = [(lowerL K1, pstrip d1)] := by
    rw [parseStep_handle hne1, handleDoc_insert ht1, dictInsert_fresh (by simp)]
    rfl
  have e2 : parseStep [(lowerL K1, pstrip d1)] d2 = [(lowerL K1, pstrip d1)] := by
    rw [parseStep_handle hne2]
    rcases hdrop with h | ⟨herr, hD, hS, hI⟩
    · exact handleDoc_drop h
    · rw [handleDoc_fallback herr]
      simp [fallbackInsert, hD, hS, hI]
  have e3 : parseStep [(lowerL K1, pstrip d1)] d3
      = [(lowerL K1, pstrip d1), (lowerL K3, pstrip d3)] := by
    rw [parseStep_handle hne3, handleDoc_insert ht3, dictInsert_fresh ?hf]
    case hf =>
      simp only [List.any_cons, List.any_nil, Bool.or_false, beq_eq_false_iff_ne, ne_eq]
      exact h13
    rfl
  have hmain : parse_k8s_manifests (d1 ++ (dash3 ++ (d2 ++ (dash3 ++ d3))))
      = [(lowerL K1, pstrip d1), (lowerL K3, pstrip d3)] := by
    unfold parse_k8s_manifests
    rw [hsplit, List.foldl_cons, List.foldl_cons, List.foldl_cons, List.foldl_nil, e1, e2, e3]
  refine ⟨hmain, ?_⟩
  rw [hmain, hsplit]
  simp [List.filter_cons, isEmpty_false_of_ne hne1, isEmpty_false_of_ne hne2,
    isEmpty_false_of_ne hne3]

/-- Witness for C3: the middle fragment is plain text with no `kind`
and no marker; it parses as a scalar, the guard is false, and it is
dropped. -/
theorem c3_undecided_fragment_dropped_witness :
    parse_k8s_manifests (("kind: Deployment".data) ++ (dash3 ++ (("just some notes".data) ++ (dash3 ++ ("kind: Ingress".data)))))
      = [(lowerL ("Deployment".data), pstrip ("kind: Deployment".data)),
         (lowerL ("Ingress".data), pstrip ("kind: Ingress".data))] ∧
    (parse_k8s_manifests (("kind: Deployment".data) ++ (dash3 ++ (("just some notes".data) ++ (dash3 ++ ("kind: Ingress".data)))))).length + 1
      = ((pySplitDashes (("kind: Deployment".data) ++ (dash3 ++ (("just some notes".data) ++ (dash3 ++ ("kind: Ingress".data)))))).filter
          (fun d => !(pstrip d).isEmpty)).length :=
  c3_undecided_fragment_dropped _ _ _
    [(("kind".data), .str ("Deployment".data))]
    [(("kind".data), .str ("Ingress".data))]
    _ _ (by rfl) (by rfl) (by rfl) (by rfl) (by decide)
    (Or.inl (by rfl)) (by decide) (by decide) (by decide) (by decide)

/-- C10 counterexample: the fragment `"a kind of Deployment"` parses
successfully as a plain scalar string and is not a mapping with a
`kind` key, yet it is not dropped: the substring membership test
`'kind' in yaml_doc` succeeds on the scalar, the indexing
`yaml_doc['kind']` then raises `TypeError`, the bare `except:` catches
it, and the marker fallback files the fragment under `deployment`. -/
theorem c10_counterexample :
    safeLoad (pstrip ("a kind of Deployment".data))
        = .ok (.str ("a kind of Deployment".data)) ∧
      parse_k8s_manifests ("a kind of Deployment".data)
        = [(("deployment".data), ("a kind of Deployment".data))] := by
  constructor
  · rfl
  · decide

/-- C10 (amended): the substring fallback runs only out of the
exception handler; a fragment that parses successfully to a value for
which the membership test `'kind' in value` is false (a mapping without
a `kind` key, or a scalar string not containing the substring `kind`)
is silently dropped even when it contains fallback marker words.  A
scalar string that does contain the substring `kind` instead raises a
`TypeError` at the indexing step and reaches the fallback, as the
counterexample shows. -/
theorem c10_amended_fallback_needs_exception (d : List Char) (v : PyVal)
    (hv : safeLoad (pstrip d) = .ok v) (hk : pyHasKind v = false)
    (hb : containsSub dash3 d = false) (hne : pstrip d ≠ []) :
    parse_k8s_manifests d = [] := by
  have htk : tryKind (pstrip d) = .ok none := by
    simp [tryKind, hv, kindOf, hk]
  have hsplit : pySplitDashes d = [d] := by
    have := sdGo_last d 0 [] (by omega) (by simpa using hb)
    simpa [pySplitDashes] using this
  unfold parse_k8s_manifests
  rw [hsplit, List.foldl_cons, List.foldl_nil, parseStep_handle hne, handleDoc_drop htk]

/-- Witness for the amended C10: a mapping without a `kind` key whose
text contains the marker `Deployment` is dropped. -/
theorem c10_amended_fallback_needs_exception_witness :
    parse_k8s_manifests ("name: app\nnote: a Deployment".data) = [] :=
  c10_amended_fallback_needs_exception _
    (.dict [(("name".data), .str ("app".data)), (("note".data), .str ("a Deployment".data))])
    (by rfl) (by rfl) (by decide) (by decide)

/-- C9: when the k-th generation call of the run raises an error `e`
(the earlier calls having succeeded), that error propagates unchanged
through the generation step and the orchestrator: the run terminates
with exactly that error, and exactly `k + 1` calls were made — the
failing call is not retried and no later generation step of the fixed
sequence executes. -/
theorem c9_generation_error_propagates {E : Type} (api : Nat → Except E (List Char))
    (k : Nat) (e : E) (hk : k < 8)
    (hok : ∀ j, j < k → ∃ r, api j = .ok r) (he : api k = .error e) :
    (run_full_pipeline api).err = some e ∧ (run_full_pipeline api).ncalls = k + 1 := by
  interval_cases k
  · constructor <;>
      simp [run_full_pipeline, generate_complete_terraform_main, generate_terraform_variables,
        generate_kubernetes_manifests, generate_github_actions_workflow, generate_dockerfile,
        generate_deployment_scripts, oneCall, he]
  · obtain ⟨r0, h0⟩ := hok 0 (by omega)
    constructor <;>
      simp [run_full_pipeline, generate_complete_terraform_main, generate_terraform_variables,
        generate_kubernetes_manifests, generate_github_actions_workflow, generate_dockerfile,
        generate_deployment_scripts, oneCall, h0, he]
  · obtain ⟨r0, h0⟩ := hok 0 (by omega)
    obtain ⟨r1, h1⟩ := hok 1 (by omega)
    constructor <;>
      simp [run_full_pipeline, generate_complete_terraform_main, generate_terraform_variables,
        generate_kubernetes_manifests, generate_github_actions_workflow, generate_dockerfile,
        generate_deployment_scripts, oneCall, h0, h1, he]
  · obtain ⟨r0, h0⟩ := hok 0 (by omega)
    obtain ⟨r1, h1⟩ := hok 1 (by omega)
    obtain ⟨r2, h2⟩ := hok 2 (by omega)
    constructor <;>
      simp [run_full_pipeline, generate_complete_terraform_main, generate_terraform_variables,
        generate_kubernetes_manifests, generate_github_actions_workflow, generate_dockerfile,
        generate_deployment_scripts, oneCall, h0, h1, h2, he]
  · obtain ⟨r0, h0⟩ := hok 0 (by omega)
    obtain ⟨r1, h1⟩ := hok 1 (by omega)
    obtain ⟨r2, h2⟩ := hok 2 (by omega)
    obtain ⟨r3, h3⟩ := hok 3 (by omega)
    constructor <;>
      simp [run_full_pipeline, generate_complete_terraform_main, generate_terraform_variables,
        generate_kubernetes_manifests, generate_github_actions_workflow, generate_dockerfile,
        generate_deployment_scripts, oneCall, h0, h1, h2, h3, he]
  · obtain ⟨r0, h0⟩ := hok 0 (by omega)
    obtain ⟨r1, h1⟩ := hok 1 (by omega)
    obtain ⟨r2, h2⟩ := hok 2 (by omega)
    obtain ⟨r3, h3⟩ := hok 3 (by omega)
    obtain ⟨r4, h4⟩ := hok 4 (by omega)
    constructor <;>
      simp [run_full_pipeline, generate_complete_terraform_main, generate_terraform_variables,
        generate_kubernetes_manifests, generate_github_actions_workflow, generate_dockerfile,
        generate_deployment_scripts, oneCall, h0, h1, h2, h3, h4, he]
  · obtain ⟨r0, h0⟩ := hok 0 (by omega)
    obtain ⟨r1, h1⟩ := hok 1 (by omega)
    obtain ⟨r2, h2⟩ := hok 2 (by omega)
    obtain ⟨r3, h3⟩ := hok 3 (by omega)
    obtain ⟨r4, h4⟩ := hok 4 (by omega)
    obtain ⟨r5, h5⟩ := hok 5 (by omega)
    constructor <;>
      simp [run_full_pipeline, generate_complete_terraform_main, generate_terraform_variables,
        generate_kubernetes_manifests, generate_github_actions_workflow, generate_dockerfile,
        generate_deployment_scripts, oneCall, h0, h1, h2, h3, h4, h5, he]
  · obtain ⟨r0, h0⟩ := hok 0 (by omega)
    obtain ⟨r1, h1⟩ := hok 1 (by omega)
    obtain ⟨r2, h2⟩ := hok 2 (by omega)
    obtain ⟨r3, h3⟩ := hok 3 (by omega)
    obtain ⟨r4, h4⟩ := hok 4 (by omega)
    obtain ⟨r5, h5⟩ := hok 5 (by omega)
    obtain ⟨r6, h6⟩ := hok 6 (by omega)
    constructor <;>
      simp [run_full_pipeline, generate_complete_terraform_main, generate_terraform_variables,
        generate_kubernetes_manifests, generate_github_actions_workflow, generate_dockerfile,
        generate_deployment_scripts, oneCall, h0, h1, h2, h3, h4, h5, h6, he]

/-- Witness for C9: every call fails, so the run stops with the first
call's error after exactly one call. -/
theorem c9_generation_error_propagates_witness :
    (run_full_pipeline apiAllFail).err = some 0 ∧
      (run_full_pipeline apiAllFail).ncalls = 0 + 1 :=
  c9_generation_error_propagates apiAllFail 0 0 (by omega)
    (fun j hj => absurd hj (by omega)) rfl
